import Mathlib

/-!
Verification of the tenant-isolation core of a multi-tenant document
platform backend.  The definitions below are a shallow embedding of the
JavaScript sources:

* `backend/src/utils/s3-guard.js` — the S3 tenant-isolation guard
  (sanitisation, ownership/structure validation, key generation,
  batch filtering);
* `backend/src/utils/file.js` — unique-filename generation;
* the document upload service (`generateSecureObjectKey`,
  `sanitizeFilename`);
* the document download service (`validateDocumentAccess`,
  `checkUserAccess`, `generatePresignedDownloadUrl`);
* the RAG ingestion service (`processDocument`);
* the tenant deletion service (`deleteTenantS3Data`).

JavaScript strings are modelled as `List Char`.  JavaScript `null` (and
`undefined`) results are modelled with `Option`; thrown errors with
`Except`.  External collaborators (S3, the database, the text
extractor, the embedder, the vector store, `Date.now`, `randomBytes`)
are modelled as explicit environment parameters, and the storage
operations a service issues are recorded in an explicit trace.
-/

set_option maxRecDepth 4096

abbrev Str := List Char

/-! ## Character classes used by the guard's regular expressions -/

/-- Character class `[\0-\x1F\x7F]` of `sanitizeS3Key` (control characters). -/
def isControlChar (c : Char) : Bool :=
  c.toNat ≤ 0x1F || c.toNat == 0x7F

/-- Character class `[a-zA-Z0-9_-]` of `sanitizeTenantId` (and of the upload
service's tenant-id regular expression `^[a-zA-Z0-9_-]+$`). -/
def isAllowedTenantChar (c : Char) : Bool :=
  (97 ≤ c.toNat && c.toNat ≤ 122) ||     -- a-z
  (65 ≤ c.toNat && c.toNat ≤ 90) ||      -- A-Z
  (48 ≤ c.toNat && c.toNat ≤ 57) ||      -- 0-9
  c.toNat == 95 ||                       -- _
  c.toNat == 45                          -- -

/-! ## String.replace with an empty replacement

`str.replace(/abc/g, '')` scans the string once, left to right, removing
non-overlapping occurrences of the three-character pattern.  Removal does
not re-scan the part of the output produced so far, which is exactly the
single-pass recursion below.  All four traversal patterns of the guard
have length three, so the pattern is passed as three characters. -/

def removeSeq (a b c : Char) : Str → Str
  | [] => []
  | [x] => [x]
  | [x, y] => [x, y]
  | x :: y :: z :: rest =>
      if x = a ∧ y = b ∧ z = c then removeSeq a b c rest
      else x :: removeSeq a b c (y :: z :: rest)

/-- Whether the three-character pattern occurs anywhere in the string. -/
def containsSeq (a b c : Char) : Str → Bool
  | [] => false
  | [_] => false
  | [_, _] => false
  | x :: y :: z :: rest =>
      (x = a ∧ y = b ∧ z = c : Bool) || containsSeq a b c (y :: z :: rest)

/-- JavaScript `String.prototype.startsWith`. -/
def startsWithStr : Str → Str → Bool
  | [], _ => true
  | _ :: _, [] => false
  | a :: as, b :: bs => a == b && startsWithStr (as) (bs)

/-- JavaScript `String.prototype.split('/')`. -/
def splitSlash : Str → List Str
  | [] => [[]]
  | c :: cs =>
      if c = '/' then [] :: splitSlash cs
      else
        match splitSlash cs with
        | [] => [[c]]
        | h :: t => (c :: h) :: t

/-! ## s3-guard.js -/

/-- `sanitizeS3Key` (s3-guard.js).  Returns `none` for a falsy input
(the empty string models that; non-string inputs are outside the model),
otherwise removes control characters and then, in four sequential global
passes, the traversal sequences. -/
def sanitizeS3Key (s3Key : Str) : Option Str :=
  if s3Key = [] then none
  else
    let s1 := s3Key.filter (fun c => !isControlChar c)
    let s2 := removeSeq '.' '.' '/' s1
    let s3 := removeSeq '.' '.' '\\' s2
    let s4 := removeSeq '/' '.' '.' s3
    let s5 := removeSeq '\\' '.' '.' s4
    some s5

/-- `sanitizeTenantId` (s3-guard.js): keep `[a-zA-Z0-9_-]`, `none` when the
input is falsy or nothing remains. -/
def sanitizeTenantId (tenantId : Str) : Option Str :=
  if tenantId = [] then none
  else
    let s := tenantId.filter isAllowedTenantChar
    if s.length > 0 then some s else none

/-- `validateTenantOwnership` (s3-guard.js): sanitise both inputs and check
that the sanitised key starts with `tenants/{sanitizedTenantId}/`. -/
def validateTenantOwnership (s3Key tenantId : Str) : Bool :=
  if s3Key = [] || tenantId = [] then false
  else
    match sanitizeS3Key s3Key, sanitizeTenantId tenantId with
    | some sk, some st =>
        if sk = [] then false
        else startsWithStr ("tenants/".data ++ st ++ "/".data) sk
    | _, _ => false

/-- `validateS3KeyStructure` (s3-guard.js): split on `/`, require at least 4
parts, part 0 `tenants` and part 2 `documents`. -/
def validateS3KeyStructure (s3Key : Str) : Bool :=
  if s3Key = [] then false
  else
    let parts := splitSlash s3Key
    if parts.length < 4 then false
    else if parts.getD 0 [] ≠ "tenants".data then false
    else if parts.getD 2 [] ≠ "documents".data then false
    else true

/-- `validateS3Key` (s3-guard.js): ownership and structure combined. -/
def validateS3Key (s3Key tenantId : Str) : Bool :=
  validateTenantOwnership s3Key tenantId && validateS3KeyStructure s3Key

/-- `extractTenantId` (s3-guard.js): the regular expression
`^tenants\/([^\/]+)\//` — the key must start with `tenants/`, followed by a
non-empty run of non-slash characters, followed by `/`. -/
def extractTenantId (s3Key : Str) : Option Str :=
  if s3Key = [] then none
  else if startsWithStr "tenants/".data s3Key then
    let rest := s3Key.drop 8
    let seg := rest.takeWhile (fun c => c != '/')
    if seg ≠ [] ∧ seg.length < rest.length then some seg else none
  else none

/-- `generateSecureS3Key` (s3-guard.js): sanitise tenant id, document id
(with the tenant-id sanitiser) and filename, throw (`none`) when any
sanitised component is falsy, else assemble the canonical key. -/
def generateSecureS3Key (tenantId documentId filename subfolder : Str) :
    Option Str :=
  match sanitizeTenantId tenantId, sanitizeTenantId documentId,
      sanitizeS3Key filename with
  | some st, some sd, some sf =>
      if sf = [] then none
      else
        some ("tenants/".data ++ st ++ "/documents/".data ++ subfolder ++
          "/".data ++ sd ++ "/".data ++ sf)
  | _, _, _ => none

/-- `filterTenantS3Keys` (s3-guard.js). -/
def filterTenantS3Keys (s3Keys : List Str) (tenantId : Str) : List Str :=
  s3Keys.filter (fun key => validateS3Key key tenantId)

/-- Validity of a tenant identifier per the data model: non-empty, only
alphanumerics, hyphens and underscores. -/
def isValidTenantIdB (t : Str) : Bool :=
  !(t.isEmpty) && t.all isAllowedTenantChar

example : sanitizeS3Key "tenants/t_1/../x".data = some "tenants/t_1/x".data := by decide
example : sanitizeTenantId "t_1!".data = some "t_1".data := by decide
example : validateS3Key "tenants/t_123/documents/raw/doc/f.pdf".data "t_123".data = true := by decide
example : validateS3Key "tenants/t_123/documents/raw/doc/f.pdf".data "t_456".data = false := by decide
example : validateS3KeyStructure "invalid/key/format".data = false := by decide
example : extractTenantId "tenants/t_9/documents/raw/d/f".data = some "t_9".data := by decide
example : generateSecureS3Key "t_123".data "doc_456".data "report.pdf".data "raw".data
    = some "tenants/t_123/documents/raw/doc_456/report.pdf".data := by decide

/-! ## Basic lemmas about the string operations -/

theorem removeSeq_cons₂ (a b c x y : Char) (t : Str) (h : ¬(x = a ∧ y = b)) :
    removeSeq a b c (x :: y :: t) = x :: removeSeq a b c (y :: t) := by
  cases t with
  | nil => rfl
  | cons z r =>
      rw [removeSeq]
      rw [if_neg]
      rintro ⟨h1, h2, h3⟩
      exact h ⟨h1, h2⟩

theorem removeSeq_cons₁ (a b c x : Char) (t : Str) (h : x ≠ a) :
    removeSeq a b c (x :: t) = x :: removeSeq a b c t := by
  cases t with
  | nil => rfl
  | cons y r => exact removeSeq_cons₂ a b c x y r (fun hp => h hp.1)

theorem removeSeq_append_clean (a c : Char) (p : Str) (hd : '.' ∉ p)
    (hl : p.getLast? ≠ some a) (t : Str) :
    removeSeq a '.' c (p ++ t) = p ++ removeSeq a '.' c t := by
  induction p with
  | nil => rfl
  | cons x q ih =>
      cases q with
      | nil =>
          simp only [List.getLast?_singleton, ne_eq, Option.some.injEq] at hl
          simpa using removeSeq_cons₁ a '.' c x t hl
      | cons y q' =>
          have hy : y ≠ '.' := by
            intro he; exact hd (by simp [he])
          have step := removeSeq_cons₂ a '.' c x y (q' ++ t)
            (fun hp => hy hp.2)
          simp only [List.cons_append, step]
          have hd' : '.' ∉ y :: q' := fun hm => hd (List.mem_cons_of_mem _ hm)
          have hl' : (y :: q').getLast? ≠ some a := by
            rwa [List.getLast?_cons_cons] at hl
          have ihx := ih hd' hl'
          simp only [List.cons_append] at ihx
          rw [ihx]

theorem removeSeq_subset (a b c : Char) (s : Str) :
    ∀ x ∈ removeSeq a b c s, x ∈ s := by
  induction s using removeSeq.induct a b c with
  | case1 => simp [removeSeq]
  | case2 => simp [removeSeq]
  | case3 => simp [removeSeq]
  | case4 x y z rest hcond ih =>
      intro w hw
      rw [removeSeq, if_pos hcond] at hw
      exact List.mem_cons_of_mem _ (List.mem_cons_of_mem _
        (List.mem_cons_of_mem _ (ih w hw)))
  | case5 x y z rest hcond ih =>
      intro w hw
      rw [removeSeq, if_neg hcond] at hw
      rcases List.mem_cons.mp hw with h | h
      · exact h ▸ List.mem_cons_self _ _
      · exact List.mem_cons_of_mem _ (ih w h)

theorem removeSeq_eq_self (a b c : Char) (s : Str)
    (h : containsSeq a b c s = false) : removeSeq a b c s = s := by
  induction s using removeSeq.induct a b c with
  | case1 => rfl
  | case2 => rfl
  | case3 => rfl
  | case4 x y z rest hcond ih =>
      exfalso
      rw [containsSeq] at h
      simp only [Bool.or_eq_false_iff, decide_eq_false_iff_not] at h
      exact h.1 hcond
  | case5 x y z rest hcond ih =>
      rw [removeSeq, if_neg hcond]
      rw [containsSeq] at h
      simp only [Bool.or_eq_false_iff] at h
      rw [ih h.2]

theorem startsWithStr_iff (p s : Str) :
    startsWithStr p s = true ↔ ∃ t, s = p ++ t := by
  induction p generalizing s with
  | nil => simp [startsWithStr]
  | cons a as ih =>
      cases s with
      | nil =>
          simp only [startsWithStr, List.cons_append]
          constructor
          · intro h; cases h
          · rintro ⟨t, ht⟩; cases ht
      | cons b bs =>
          rw [startsWithStr, Bool.and_eq_true, beq_iff_eq, ih]
          constructor
          · rintro ⟨rfl, t, rfl⟩; exact ⟨t, rfl⟩
          · rintro ⟨t, ht⟩
            rw [List.cons_append] at ht
            cases ht
            exact ⟨rfl, t, rfl⟩

theorem splitSlash_append (w : Str) (hw : '/' ∉ w) (rest : Str) :
    splitSlash (w ++ '/' :: rest) = w :: splitSlash rest := by
  induction w with
  | nil => simp [splitSlash]
  | cons c w' ih =>
      have hc : c ≠ '/' := fun h => hw (by simp [h])
      have hw' : '/' ∉ w' := fun h => hw (List.mem_cons_of_mem _ h)
      rw [List.cons_append, splitSlash, if_neg hc, ih hw']

theorem splitSlash_decomp (r : Str) :
    (r.dropWhile (fun c => c != '/') = [] ∧
      splitSlash r = [r.takeWhile (fun c => c != '/')]) ∨
    (∃ rest, r.dropWhile (fun c => c != '/') = '/' :: rest ∧
      splitSlash r = r.takeWhile (fun c => c != '/') :: splitSlash rest) := by
  induction r with
  | nil => exact Or.inl ⟨rfl, rfl⟩
  | cons c cs ih =>
      by_cases hc : c = '/'
      · subst hc
        refine Or.inr ⟨cs, ?_, ?_⟩
        · rw [List.dropWhile_cons]
          simp
        · rw [List.takeWhile_cons]
          simp [splitSlash]
      · have hpc : (c != '/') = true := by simp [hc]
        rcases ih with ⟨hd, hs⟩ | ⟨rest, hd, hs⟩
        · refine Or.inl ⟨?_, ?_⟩
          · rw [List.dropWhile_cons, hpc]
            simpa using hd
          · rw [splitSlash, if_neg hc, hs, List.takeWhile_cons, hpc]
            simp
        · refine Or.inr ⟨rest, ?_, ?_⟩
          · rw [List.dropWhile_cons, hpc]
            simpa using hd
          · rw [splitSlash, if_neg hc, hs, List.takeWhile_cons, hpc]
            simp

theorem sep_inj_of_append_eq (sep : Char) (A : Str) :
    ∀ B s t : Str, sep ∉ A → sep ∉ B →
      A ++ sep :: s = B ++ sep :: t → A = B ∧ s = t := by
  induction A with
  | nil =>
      intro B s t _ hB h
      cases B with
      | nil =>
          constructor
          · rfl
          · simpa using h
      | cons b B' =>
          exfalso
          rw [List.nil_append, List.cons_append] at h
          have : sep = b := by injection h with h1 _
          exact hB (this ▸ List.mem_cons_self _ _)
  | cons a A' ih =>
      intro B s t hA hB h
      cases B with
      | nil =>
          exfalso
          rw [List.cons_append, List.nil_append] at h
          have : a = sep := by injection h with h1 _
          exact hA (this ▸ List.mem_cons_self _ _)
      | cons b B' =>
          rw [List.cons_append, List.cons_append] at h
          have hab : a = b := by injection h with h1 _
          have htl : A' ++ sep :: s = B' ++ sep :: t := by injection h with _ h2
          have hA' : sep ∉ A' := fun hm => hA (List.mem_cons_of_mem _ hm)
          have hB' : sep ∉ B' := fun hm => hB (List.mem_cons_of_mem _ hm)
          rcases ih B' s t hA' hB' htl with ⟨h1, h2⟩
          exact ⟨by rw [hab, h1], h2⟩

theorem allowed_not_control (c : Char) (h : isAllowedTenantChar c = true) :
    isControlChar c = false := by
  simp only [isAllowedTenantChar, Bool.or_eq_true, Bool.and_eq_true,
    decide_eq_true_eq, beq_iff_eq] at h
  simp only [isControlChar, Bool.or_eq_false_iff, decide_eq_false_iff_not,
    beq_eq_false_iff_ne, ne_eq]
  omega

theorem allowed_ne_dot (c : Char) (h : isAllowedTenantChar c = true) :
    c ≠ '.' := by
  rintro rfl
  revert h
  decide

theorem allowed_ne_slash (c : Char) (h : isAllowedTenantChar c = true) :
    c ≠ '/' := by
  rintro rfl
  revert h
  decide

theorem validId_ne_nil (t : Str) (h : isValidTenantIdB t = true) : t ≠ [] := by
  rw [isValidTenantIdB, Bool.and_eq_true] at h
  intro he
  rw [he] at h
  exact absurd h.1 (by decide)

theorem validId_mem (t : Str) (h : isValidTenantIdB t = true) :
    ∀ c ∈ t, isAllowedTenantChar c = true := by
  rw [isValidTenantIdB, Bool.and_eq_true, List.all_eq_true] at h
  exact h.2

theorem validId_sanitize (t : Str) (h : isValidTenantIdB t = true) :
    sanitizeTenantId t = some t := by
  have hne := validId_ne_nil t h
  have hall := validId_mem t h
  have hfil : t.filter isAllowedTenantChar = t :=
    List.filter_eq_self.mpr hall
  rw [sanitizeTenantId, if_neg hne]
  simp only [hfil]
  rw [if_pos]
  exact List.length_pos.mpr hne

theorem dropWhile_cons_head (p : Char → Bool) (l : Str) :
    ∀ x xs, l.dropWhile p = x :: xs → p x = false := by
  induction l with
  | nil => intro x xs h; cases h
  | cons c cs ih =>
      intro x xs h
      rw [List.dropWhile_cons] at h
      by_cases hp : p c = true
      · rw [if_pos hp] at h
        exact ih x xs h
      · rw [if_neg hp] at h
        injection h with h1 _
        rw [← h1]
        exact Bool.not_eq_true _ |>.mp hp

theorem sanitizeS3Key_append_clean (p t : Str) (hne : p ≠ [])
    (hc : ∀ c ∈ p, isControlChar c = false) (hd : '.' ∉ p)
    (hl : p.getLast? = some 's') :
    ∃ t4, sanitizeS3Key (p ++ t) = some (p ++ t4) := by
  have hpt : p ++ t ≠ [] := by
    intro h
    exact hne (List.append_eq_nil.mp h).1
  have hfil : (p ++ t).filter (fun c => !isControlChar c)
      = p ++ t.filter (fun c => !isControlChar c) := by
    rw [List.filter_append]
    congr 1
    refine List.filter_eq_self.mpr ?_
    intro c hcm
    rw [hc c hcm]
    rfl
  have h1 : p.getLast? ≠ some '.' := by rw [hl]; decide
  have h2 : p.getLast? ≠ some '/' := by rw [hl]; decide
  have h3 : p.getLast? ≠ some '\\' := by rw [hl]; decide
  refine ⟨removeSeq '\\' '.' '.' (removeSeq '/' '.' '.' (removeSeq '.' '.' '\\'
    (removeSeq '.' '.' '/' (t.filter (fun c => !isControlChar c))))), ?_⟩
  simp only [sanitizeS3Key, if_neg hpt]
  rw [hfil,
    removeSeq_append_clean '.' '/' p hd h1,
    removeSeq_append_clean '.' '\\' p hd h1,
    removeSeq_append_clean '/' '.' p hd h2,
    removeSeq_append_clean '\\' '.' p hd h3]

theorem takeWhile_mem_imp (p : Char → Bool) (l : Str) :
    ∀ c ∈ l.takeWhile p, p c = true := by
  induction l with
  | nil => intro c hc; cases hc
  | cons x xs ih =>
      intro c hc
      rw [List.takeWhile_cons] at hc
      by_cases hp : p x = true
      · rw [if_pos hp] at hc
        rcases List.mem_cons.mp hc with h | h
        · rwa [h]
        · exact ih c h
      · rw [if_neg hp] at hc
        cases hc

theorem extractTenantId_inv (k A : Str) (h : extractTenantId k = some A) :
    (∀ c ∈ A, c ≠ '/') ∧ ∃ r, k = "tenants/".data ++ A ++ '/' :: r := by
  simp only [extractTenantId] at h
  by_cases h0 : k = []
  · rw [if_pos h0] at h
    cases h
  rw [if_neg h0] at h
  by_cases h1 : startsWithStr "tenants/".data k = true
  case neg =>
    rw [if_neg h1] at h
    cases h
  rw [if_pos h1] at h
  by_cases h2 : (k.drop 8).takeWhile (fun c => c != '/') ≠ [] ∧
      ((k.drop 8).takeWhile (fun c => c != '/')).length < (k.drop 8).length
  case neg =>
    rw [if_neg h2] at h
    cases h
  rw [if_pos h2] at h
  injection h with hA
  subst hA
  rcases (startsWithStr_iff _ _).mp h1 with ⟨t, ht⟩
  have hdrop : k.drop 8 = t := by
    rw [ht]
    have h8 : ("tenants/".data).length = 8 := by decide
    rw [← h8, List.drop_left]
  rw [hdrop] at h2 ⊢
  rcases h2 with ⟨hseg, hlen⟩
  constructor
  · intro c hcm
    have := takeWhile_mem_imp _ t c hcm
    simpa using this
  · have hsp := List.takeWhile_append_dropWhile (p := fun c => c != '/') (l := t)
    have hdw : t.dropWhile (fun c => c != '/') ≠ [] := by
      intro hnil
      have heq : t = List.takeWhile (fun c => c != '/') t := by
        conv_lhs => rw [← hsp]
        rw [hnil, List.append_nil]
      rw [← heq] at hlen
      exact absurd hlen (lt_irrefl _)
    rcases hx : t.dropWhile (fun c => c != '/') with _ | ⟨d, r⟩
    · exact absurd hx hdw
    · have hd : d = '/' := by
        have := dropWhile_cons_head _ t d r hx
        simpa using this
      refine ⟨r, ?_⟩
      have ht2 : t = List.takeWhile (fun c => c != '/') t ++ '/' :: r := by
        conv_lhs => rw [← hsp]
        rw [hx, hd]
      rw [ht]
      conv_lhs => rw [ht2]
      rw [List.append_assoc]

/-! ## C1: cross-tenant isolation invariant -/

/-- C1: for every pair of tenant identifiers A and B (per the data model:
non-empty strings over `[a-zA-Z0-9_-]`) with A ≠ B, and every storage key k
with `extractTenantId k = some A`, the guard's combined validation
`validateS3Key k B` returns false. -/
theorem C1_cross_tenant_isolation (A B k : Str)
    (hA : isValidTenantIdB A = true) (hB : isValidTenantIdB B = true)
    (hAB : A ≠ B) (hx : extractTenantId k = some A) :
    validateS3Key k B = false := by
  cases hv : validateS3Key k B with
  | false => rfl
  | true =>
  exfalso
  rw [validateS3Key, Bool.and_eq_true] at hv
  obtain ⟨hown, hstruct⟩ := hv
  obtain ⟨hAslash, r, hk⟩ := extractTenantId_inv k A hx
  have hAns : '/' ∉ A := fun hm => hAslash '/' hm rfl
  have hBns : '/' ∉ B := fun hm =>
    allowed_ne_slash '/' (validId_mem B hB '/' hm) rfl
  have hk_ne : k ≠ [] := by rw [hk]; simp
  simp only [validateS3KeyStructure, if_neg hk_ne] at hstruct
  by_cases hL : (splitSlash k).length < 4
  · rw [if_pos hL] at hstruct; cases hstruct
  rw [if_neg hL] at hstruct
  by_cases hg0 : (splitSlash k).getD 0 [] ≠ "tenants".data
  · rw [if_pos hg0] at hstruct; cases hstruct
  rw [if_neg hg0] at hstruct
  by_cases hg2 : (splitSlash k).getD 2 [] ≠ "documents".data
  · rw [if_pos hg2] at hstruct; cases hstruct
  have hg2' : (splitSlash k).getD 2 [] = "documents".data := not_ne_iff.mp hg2
  have hten : ("tenants/".data : Str) = "tenants".data ++ ['/'] := by decide
  have hk' : k = "tenants".data ++ '/' :: (A ++ '/' :: r) := by
    rw [hk, hten, List.append_assoc, List.append_assoc, List.singleton_append]
  have hsplit : splitSlash k = "tenants".data :: A :: splitSlash r := by
    rw [hk', splitSlash_append "tenants".data (by decide) _,
        splitSlash_append A hAns r]
  rcases splitSlash_decomp r with ⟨hdw, hsr⟩ | ⟨rest, hdw, hsr⟩
  · apply hL
    rw [hsplit, hsr]
    simp
  have htw : r.takeWhile (fun c => c != '/') = "documents".data := by
    rw [hsplit, hsr] at hg2'
    simpa [List.getD] using hg2'
  have hr : r = "documents".data ++ '/' :: rest := by
    conv_lhs => rw [← List.takeWhile_append_dropWhile (p := fun c => c != '/') (l := r)]
    rw [htw, hdw]
  have hk2 : k = ("tenants/".data ++ A ++ '/' :: "documents".data) ++ '/' :: rest := by
    rw [hk, hr]
    simp
  have hp_ne : ("tenants/".data ++ A ++ '/' :: "documents".data) ≠ [] := by simp
  have hp_ctrl : ∀ c ∈ "tenants/".data ++ A ++ '/' :: "documents".data,
      isControlChar c = false := by
    intro c hc
    rcases List.mem_append.mp hc with h | h
    · rcases List.mem_append.mp h with h2 | h2
      · exact (show ∀ c ∈ "tenants/".data, isControlChar c = false by decide) c h2
      · exact allowed_not_control c (validId_mem A hA c h2)
    · exact (show ∀ c ∈ '/' :: "documents".data, isControlChar c = false by decide) c h
  have hp_dot : '.' ∉ "tenants/".data ++ A ++ '/' :: "documents".data := by
    intro hc
    rcases List.mem_append.mp hc with h | h
    · rcases List.mem_append.mp h with h2 | h2
      · exact absurd h2 (by decide)
      · exact allowed_ne_dot '.' (validId_mem A hA '.' h2) rfl
    · exact absurd h (by decide)
  have hp_last : ("tenants/".data ++ A ++ '/' :: "documents".data).getLast?
      = some 's' := by
    rw [List.getLast?_append_cons]
    decide
  obtain ⟨t4, hsan⟩ := sanitizeS3Key_append_clean
    ("tenants/".data ++ A ++ '/' :: "documents".data) ('/' :: rest)
    hp_ne hp_ctrl hp_dot hp_last
  rw [← hk2] at hsan
  have hBs := validId_sanitize B hB
  have hBne := validId_ne_nil B hB
  have hpt4 : ("tenants/".data ++ A ++ '/' :: "documents".data) ++ t4 ≠ [] := by
    intro hnil
    exact hp_ne (List.append_eq_nil.mp hnil).1
  simp only [validateTenantOwnership, hsan, hBs, hk_ne, hBne, hpt4] at hown
  simp only [decide_False, Bool.or_self, Bool.false_eq_true, if_false] at hown
  rw [startsWithStr_iff] at hown
  obtain ⟨w, hw⟩ := hown
  simp only [List.append_assoc, List.cons_append, List.singleton_append,
    List.nil_append, List.cons.injEq, true_and] at hw
  exact hAB (sep_inj_of_append_eq '/' A B _ _ hAns hBns hw).1

/-- Witness for C1 at a concrete cross-tenant input. -/
theorem C1_cross_tenant_isolation_witness :
    validateS3Key "tenants/t_1/documents/raw/d/f.pdf".data "t_2".data = false :=
  C1_cross_tenant_isolation "t_1".data "t_2".data
    "tenants/t_1/documents/raw/d/f.pdf".data
    (by decide) (by decide) (by decide) (by decide)

/-! ## Canonical keys always validate for their own tenant -/

theorem splitSlash_ne_nil (s : Str) : splitSlash s ≠ [] := by
  cases s with
  | nil => simp [splitSlash]
  | cons c cs =>
      rw [splitSlash]
      by_cases hc : c = '/'
      · rw [if_pos hc]
        simp
      · rw [if_neg hc]
        cases h : splitSlash cs with
        | nil => simp
        | cons x t => simp

theorem sanitize_canonical (T : Str) (hT : isValidTenantIdB T = true) (t : Str) :
    ∃ t4, sanitizeS3Key (("tenants/".data ++ T ++ '/' :: "documents".data) ++ t)
      = some (("tenants/".data ++ T ++ '/' :: "documents".data) ++ t4) := by
  apply sanitizeS3Key_append_clean
  · simp
  · intro c hc
    rcases List.mem_append.mp hc with h | h
    · rcases List.mem_append.mp h with h2 | h2
      · exact (show ∀ c ∈ "tenants/".data, isControlChar c = false by decide) c h2
      · exact allowed_not_control c (validId_mem T hT c h2)
    · exact (show ∀ c ∈ '/' :: "documents".data, isControlChar c = false by decide) c h
  · intro hc
    rcases List.mem_append.mp hc with h | h
    · rcases List.mem_append.mp h with h2 | h2
      · exact absurd h2 (by decide)
      · exact allowed_ne_dot '.' (validId_mem T hT '.' h2) rfl
    · exact absurd h (by decide)
  · rw [List.getLast?_append_cons]
    decide

/-- Any key of the shape `tenants/{T}/documents/{rest}` validates for the
valid tenant identifier `T`. -/
theorem canonical_key_valid (T rest : Str) (hT : isValidTenantIdB T = true) :
    validateS3Key ("tenants/".data ++ T ++ "/documents/".data ++ rest) T
      = true := by
  have hTns : '/' ∉ T := fun hm =>
    allowed_ne_slash '/' (validId_mem T hT '/' hm) rfl
  have hTne := validId_ne_nil T hT
  have hform : "tenants/".data ++ T ++ "/documents/".data ++ rest
      = "tenants".data ++ '/' :: (T ++ '/' :: ("documents".data ++ '/' :: rest)) := by
    simp [show ("tenants/".data : Str) = "tenants".data ++ ['/'] from by decide,
      List.append_assoc]
  have hk2 : "tenants/".data ++ T ++ "/documents/".data ++ rest
      = ("tenants/".data ++ T ++ '/' :: "documents".data) ++ '/' :: rest := by
    simp [List.append_assoc]
  have hsplit : splitSlash ("tenants".data ++ '/' ::
        (T ++ '/' :: ("documents".data ++ '/' :: rest)))
      = "tenants".data :: T :: "documents".data :: splitSlash rest := by
    rw [splitSlash_append "tenants".data (by decide),
        splitSlash_append T hTns,
        splitSlash_append "documents".data (by decide)]
  have hkne : "tenants/".data ++ T ++ "/documents/".data ++ rest ≠ [] := by
    simp
  have hstructure :
      validateS3KeyStructure ("tenants/".data ++ T ++ "/documents/".data ++ rest)
        = true := by
    rw [hform] at hkne ⊢
    simp only [validateS3KeyStructure, if_neg hkne, hsplit]
    have hlen : ¬("tenants".data :: T :: "documents".data ::
        splitSlash rest).length < 4 := by
      have h1 : 1 ≤ (splitSlash rest).length :=
        List.length_pos.mpr (splitSlash_ne_nil rest)
      simp only [List.length_cons]
      omega
    rw [if_neg hlen]
    rw [if_neg (by simp [List.getD_cons_zero])]
    rw [if_neg (by simp [List.getD_cons_succ, List.getD_cons_zero])]
  obtain ⟨t4, hsan⟩ := sanitize_canonical T hT ('/' :: rest)
  rw [← hk2] at hsan
  have hpt4 : ("tenants/".data ++ T ++ '/' :: "documents".data) ++ t4 ≠ [] := by
    simp
  have hownership :
      validateTenantOwnership ("tenants/".data ++ T ++ "/documents/".data ++ rest) T
        = true := by
    simp only [validateTenantOwnership, hsan, validId_sanitize T hT, hkne,
      hTne, hpt4]
    simp only [decide_False, Bool.or_self, Bool.false_eq_true, if_false]
    rw [startsWithStr_iff]
    exact ⟨"documents".data ++ t4, by simp [List.append_assoc]⟩
  rw [validateS3Key, hownership, hstructure]
  rfl

/-! ## C2: build/validate round trip -/

/-- C2: for every valid tuple (tenant id, document id, filename, stage) the
key built by `generateSecureS3Key` validates as true against the same
tenant id; and concretely, building with ("t_123", "doc_456",
"report.pdf", "raw") yields `tenants/t_123/documents/raw/doc_456/report.pdf`,
which validates true for "t_123" and false for "t_456". -/
theorem C2_build_validate_roundtrip :
    (∀ T D f F st, isValidTenantIdB T = true → isValidTenantIdB D = true →
      sanitizeS3Key f = some F → F ≠ [] →
      st ∈ ["raw".data, "extracted".data, "chunks".data, "embeddings".data] →
      ∃ key, generateSecureS3Key T D f st = some key ∧
        validateS3Key key T = true) ∧
    (generateSecureS3Key "t_123".data "doc_456".data "report.pdf".data "raw".data
        = some "tenants/t_123/documents/raw/doc_456/report.pdf".data ∧
      validateS3Key "tenants/t_123/documents/raw/doc_456/report.pdf".data
        "t_123".data = true ∧
      validateS3Key "tenants/t_123/documents/raw/doc_456/report.pdf".data
        "t_456".data = false) := by
  constructor
  · intro T D f F st hT hD hf hF _hst
    refine ⟨"tenants/".data ++ T ++ "/documents/".data ++ st ++ "/".data ++ D ++
      "/".data ++ F, ?_, ?_⟩
    · simp only [generateSecureS3Key, validId_sanitize T hT,
        validId_sanitize D hD, hf, if_neg hF]
    · have h := canonical_key_valid T (st ++ "/".data ++ D ++ "/".data ++ F) hT
      have hre : "tenants/".data ++ T ++ "/documents/".data ++
            (st ++ "/".data ++ D ++ "/".data ++ F)
          = "tenants/".data ++ T ++ "/documents/".data ++ st ++ "/".data ++ D ++
            "/".data ++ F := by
        simp [List.append_assoc]
      rwa [hre] at h
  · exact ⟨by decide, by decide, by decide⟩

/-- Witness for C2's universal part at concrete inputs. -/
theorem C2_build_validate_roundtrip_witness :
    ∃ key, generateSecureS3Key "t_9".data "doc_1".data "a.txt".data
        "chunks".data = some key ∧
      validateS3Key key "t_9".data = true :=
  C2_build_validate_roundtrip.1 "t_9".data "doc_1".data "a.txt".data
    "a.txt".data "chunks".data
    (by decide) (by decide) (by decide) (by decide) (by decide)

/-! ## C8: sanitizeKey totality -/

/-- C8 counterexample: on the empty-string input, `sanitizeS3Key` returns
null (the code's falsy check `if (!s3Key ...) return null` fires), so the
claim "for every input sanitizeKey returns a string and never returns null"
is false. -/
theorem C8_counterexample : sanitizeS3Key "".data = none := by decide

/-- C8 (amended): for every non-empty string input, `sanitizeS3Key` returns
a string (possibly empty), never null; null occurs only for the empty
(falsy) input. -/
theorem C8_total_on_nonempty (k : Str) (h : k ≠ []) :
    (sanitizeS3Key k).isSome = true := by
  simp only [sanitizeS3Key, if_neg h]
  rfl

/-- Witness for C8's amended theorem. -/
theorem C8_total_on_nonempty_witness :
    (sanitizeS3Key "a".data).isSome = true :=
  C8_total_on_nonempty "a".data (by decide)

/-! ## C9: sanitizeKey idempotence -/

/-- C9 counterexample: `sanitizeS3Key` is not idempotent.  On `"....//"` the
single-pass removal of `../` produces `"../"` (the removal creates a new
traversal sequence), and sanitising `"../"` again yields `""`.  So applying
`sanitizeS3Key` twice differs from applying it once. -/
theorem C9_counterexample :
    (sanitizeS3Key "....//".data).bind sanitizeS3Key
      ≠ sanitizeS3Key "....//".data := by decide

/-- Whether the string contains none of the four traversal sequences
removed by `sanitizeS3Key`. -/
def noTraversalSeq (s : Str) : Bool :=
  !(containsSeq '.' '.' '/' s || containsSeq '.' '.' '\\' s ||
    containsSeq '/' '.' '.' s || containsSeq '\\' '.' '.' s)

/-- C9 (amended): `sanitizeS3Key` is idempotent on every key whose first
sanitisation yields a non-empty string free of traversal sequences; in
general a second application can differ, because removing traversal
sequences can create new ones (see the counterexample) and an empty result
maps to null. -/
theorem C9_idempotent_on_clean (k s : Str) (h : sanitizeS3Key k = some s)
    (hne : s ≠ []) (hnt : noTraversalSeq s = true) :
    sanitizeS3Key s = some s := by
  simp only [sanitizeS3Key] at h
  by_cases hk : k = []
  · rw [if_pos hk] at h; cases h
  rw [if_neg hk] at h
  injection h with hs
  have hmem : ∀ c ∈ s, isControlChar c = false := by
    intro c hc
    rw [← hs] at hc
    have h1 := removeSeq_subset _ _ _ _ c hc
    have h2 := removeSeq_subset _ _ _ _ c h1
    have h3 := removeSeq_subset _ _ _ _ c h2
    have h4 := removeSeq_subset _ _ _ _ c h3
    have h5 := (List.mem_filter.mp h4).2
    simpa using h5
  simp only [noTraversalSeq, Bool.not_eq_true', Bool.or_eq_false_iff] at hnt
  obtain ⟨⟨⟨hn1, hn2⟩, hn3⟩, hn4⟩ := hnt
  simp only [sanitizeS3Key, if_neg hne]
  rw [List.filter_eq_self.mpr (fun c hc => by rw [hmem c hc]; rfl)]
  rw [removeSeq_eq_self _ _ _ _ hn1, removeSeq_eq_self _ _ _ _ hn2,
      removeSeq_eq_self _ _ _ _ hn3, removeSeq_eq_self _ _ _ _ hn4]

/-- Witness for C9's amended theorem. -/
theorem C9_idempotent_on_clean_witness :
    sanitizeS3Key "tenants/t_1/documents/raw/d/f.pdf".data
      = some "tenants/t_1/documents/raw/d/f.pdf".data :=
  C9_idempotent_on_clean "tenants/t_1/documents/raw/d/f.pdf".data
    "tenants/t_1/documents/raw/d/f.pdf".data
    (by decide) (by decide) (by decide)

/-! ## Tenant deletion workflow (TenantDeletionService.deleteTenantS3Data)

The service's external collaborators are modelled by `DeletionEnv`: whether
the tenant row exists, the count of active users, the full paginated listing
returned for the prefix `tenants/{tenantId}/`, the per-batch deleted count
reported by the bulk-delete call, and the audit timestamp.  The outcome
records the thrown error or returned result, every batch handed to the S3
bulk-delete call, and every audit-log row written. -/

/-- JavaScript `String.prototype.includes` for a one-character needle. -/
def includesChar (c : Char) (s : Str) : Bool :=
  s.any (fun x => x == c)

inductive DeletionError
  | invalidTenantIdFormat
  | tenantNotFound
  | tenantHasActiveUsers
  | invalidS3PrefixFormat
  | foreignObjectsDetected
  deriving DecidableEq

structure DeletionResult where
  deletedCount : Nat
  requestedDeletionCount : Option Nat
  deriving DecidableEq

structure AuditEntry where
  deletedObjectCount : Nat
  requestedDeletionCount : Nat
  deletionTimestamp : Nat
  deriving DecidableEq

structure DeletionEnv where
  tenantExists : Bool
  activeUsers : Nat
  listedObjects : List Str
  deletedPerBatch : List Str → Nat
  now : Nat

structure DeletionOutcome where
  result : Except DeletionError DeletionResult
  deleteBatches : List (List Str)
  auditEntries : List AuditEntry

/-- The batched deletion loop: slices of at most 1000 keys, one bulk-delete
call per slice, accumulating the reported deleted counts; a batch error
never aborts the loop.  The structural fuel is the number of keys, which
always suffices because every iteration drops at least one key; the
zero-fuel branch is unreachable. -/
def batchLoopGo (env : DeletionEnv) : Nat → List Str → Nat × List (List Str)
  | _, [] => (0, [])
  | 0, _ :: _ => (0, [])
  | fuel + 1, k :: ks =>
      let batch := (k :: ks).take 1000
      let r := batchLoopGo env fuel ((k :: ks).drop 1000)
      (env.deletedPerBatch batch + r.1, batch :: r.2)

def batchLoop (env : DeletionEnv) (keys : List Str) : Nat × List (List Str) :=
  batchLoopGo env keys.length keys

/-- `deleteTenantS3Data` (TenantDeletionService): safety checks 1–4, list,
early return on empty listing, filter by tenant validity with a hard abort
on any foreign key, batched deletion, then one audit entry. -/
def deleteTenantS3Data (env : DeletionEnv) (tenantId : Str) (force : Bool) :
    DeletionOutcome :=
  if sanitizeTenantId tenantId = none then
    ⟨.error .invalidTenantIdFormat, [], []⟩
  else if env.tenantExists = false then
    ⟨.error .tenantNotFound, [], []⟩
  else if env.activeUsers > 0 ∧ force = false then
    ⟨.error .tenantHasActiveUsers, [], []⟩
  else
    let pfx := "tenants/".data ++ tenantId ++ "/".data
    if ¬(startsWithStr "tenants/".data pfx = true ∧ includesChar '/' pfx = true) then
      ⟨.error .invalidS3PrefixFormat, [], []⟩
    else
      let objectsToDelete := env.listedObjects
      if objectsToDelete.isEmpty then
        ⟨.ok ⟨0, none⟩, [], []⟩
      else
        let validObjects := filterTenantS3Keys objectsToDelete tenantId
        if validObjects.length ≠ objectsToDelete.length then
          ⟨.error .foreignObjectsDetected, [], []⟩
        else
          let r := batchLoop env validObjects
          ⟨.ok ⟨r.1, some validObjects.length⟩, r.2,
            [⟨r.1, validObjects.length, env.now⟩]⟩

/-! ## C3: deletion aborts before any side effect on foreign objects -/

/-- C3: in a deletion run that reaches the listing (the pre-checks pass),
whenever filtering the listed keys by tenant validity yields a count
different from the listed count, the workflow aborts with the
foreign-objects error and no bulk-delete batch is ever issued. -/
theorem C3_abort_before_side_effect (env : DeletionEnv) (tenantId : Str)
    (force : Bool)
    (h1 : sanitizeTenantId tenantId ≠ none)
    (h2 : env.tenantExists = true)
    (h3 : env.activeUsers = 0 ∨ force = true)
    (hmis : (filterTenantS3Keys env.listedObjects tenantId).length
      ≠ env.listedObjects.length) :
    (deleteTenantS3Data env tenantId force).result
        = .error .foreignObjectsDetected ∧
      (deleteTenantS3Data env tenantId force).deleteBatches = [] := by
  have hne : env.listedObjects ≠ [] := by
    intro h
    rw [h] at hmis
    simp [filterTenantS3Keys] at hmis
  have hactive : ¬(env.activeUsers > 0 ∧ force = false) := by
    rcases h3 with h | h <;> simp [h]
  have hpfx : startsWithStr "tenants/".data
        ("tenants/".data ++ tenantId ++ "/".data) = true ∧
      includesChar '/' ("tenants/".data ++ tenantId ++ "/".data) = true := by
    constructor
    · rw [startsWithStr_iff]
      exact ⟨tenantId ++ "/".data, by simp [List.append_assoc]⟩
    · simp [includesChar]
  have hempty : ¬(env.listedObjects.isEmpty = true) := by
    simp [List.isEmpty_iff, hne]
  have hout : deleteTenantS3Data env tenantId force
      = ⟨.error .foreignObjectsDetected, [], []⟩ := by
    simp only [deleteTenantS3Data]
    rw [if_neg h1, if_neg (by simp [h2]), if_neg hactive,
        if_neg (not_not_intro hpfx), if_neg hempty, if_pos hmis]
  rw [hout]
  exact ⟨rfl, rfl⟩

def C3env : DeletionEnv :=
  ⟨true, 0, ["tenants/t_2/documents/raw/d/f".data], fun _ => 0, 0⟩

/-- Witness for C3: a listing holding one foreign object for tenant t_1. -/
theorem C3_abort_before_side_effect_witness :
    (deleteTenantS3Data C3env "t_1".data false).result
        = .error .foreignObjectsDetected ∧
      (deleteTenantS3Data C3env "t_1".data false).deleteBatches = [] :=
  C3_abort_before_side_effect C3env "t_1".data false
    (by decide) rfl (Or.inl rfl) (by decide)

/-! ## C7: deletion audit behaviour -/

def C7env : DeletionEnv := ⟨true, 0, [], fun _ => 0, 0⟩

/-- C7 counterexample: a run that passes every safety check but finds zero
objects returns `deletedCount = 0` with no error and writes NO audit entry
(the code returns early, before `logDeletionAudit`), refuting "every run
writes exactly one audit-log entry ... including the run in which zero
objects are found". -/
theorem C7_counterexample :
    (deleteTenantS3Data C7env "t_9".data false).auditEntries = [] ∧
      (deleteTenantS3Data C7env "t_9".data false).result = .ok ⟨0, none⟩ :=
  ⟨rfl, rfl⟩

/-- C7 (amended): a deletion run that passes all safety checks and finds at
least one object, all valid for the tenant, writes exactly one audit entry
recording the deleted count, the requested count and the timestamp; a run
that finds zero objects completes with deletedCount = 0 and no error but
writes no audit entry. -/
theorem C7_audit_on_completed_runs (env : DeletionEnv) (tenantId : Str)
    (force : Bool)
    (h1 : sanitizeTenantId tenantId ≠ none)
    (h2 : env.tenantExists = true)
    (h3 : env.activeUsers = 0 ∨ force = true) :
    (env.listedObjects ≠ [] →
      (filterTenantS3Keys env.listedObjects tenantId).length
          = env.listedObjects.length →
      (deleteTenantS3Data env tenantId force).auditEntries
        = [⟨(batchLoop env (filterTenantS3Keys env.listedObjects tenantId)).1,
            (filterTenantS3Keys env.listedObjects tenantId).length, env.now⟩]) ∧
    (env.listedObjects = [] →
      (deleteTenantS3Data env tenantId force).result = .ok ⟨0, none⟩ ∧
      (deleteTenantS3Data env tenantId force).auditEntries = []) := by
  have hactive : ¬(env.activeUsers > 0 ∧ force = false) := by
    rcases h3 with h | h <;> simp [h]
  have hpfx : startsWithStr "tenants/".data
        ("tenants/".data ++ tenantId ++ "/".data) = true ∧
      includesChar '/' ("tenants/".data ++ tenantId ++ "/".data) = true := by
    constructor
    · rw [startsWithStr_iff]
      exact ⟨tenantId ++ "/".data, by simp [List.append_assoc]⟩
    · simp [includesChar]
  constructor
  · intro hne heq
    have hempty : ¬(env.listedObjects.isEmpty = true) := by
      simp [List.isEmpty_iff, hne]
    have hout : deleteTenantS3Data env tenantId force
        = ⟨.ok ⟨(batchLoop env (filterTenantS3Keys env.listedObjects tenantId)).1,
            some (filterTenantS3Keys env.listedObjects tenantId).length⟩,
          (batchLoop env (filterTenantS3Keys env.listedObjects tenantId)).2,
          [⟨(batchLoop env (filterTenantS3Keys env.listedObjects tenantId)).1,
            (filterTenantS3Keys env.listedObjects tenantId).length, env.now⟩]⟩ := by
      simp only [deleteTenantS3Data]
      rw [if_neg h1, if_neg (by simp [h2]), if_neg hactive,
          if_neg (not_not_intro hpfx), if_neg hempty,
          if_neg (not_not_intro heq)]
    rw [hout]
  · intro hnil
    have hempty : env.listedObjects.isEmpty = true := by
      simp [List.isEmpty_iff, hnil]
    have hout : deleteTenantS3Data env tenantId force
        = ⟨.ok ⟨0, none⟩, [], []⟩ := by
      simp only [deleteTenantS3Data]
      rw [if_neg h1, if_neg (by simp [h2]), if_neg hactive,
          if_neg (not_not_intro hpfx), if_pos hempty]
    rw [hout]
    exact ⟨rfl, rfl⟩

def C7envB : DeletionEnv :=
  ⟨true, 0, ["tenants/t_9/documents/raw/d/f".data], fun b => b.length, 7⟩

/-- Witness for C7's amended theorem: one valid object, one audit entry
recording requested = deleted = 1 at timestamp 7. -/
theorem C7_audit_on_completed_runs_witness :
    (deleteTenantS3Data C7envB "t_9".data false).auditEntries
      = [⟨1, 1, 7⟩] := by
  have h := (C7_audit_on_completed_runs C7envB "t_9".data false
    (by decide) rfl (Or.inl rfl)).1 (by decide) (by decide)
  rw [h]
  decide

/-! ## Decimal rendering of numbers

JavaScript template literals render numbers in decimal (`${Date.now()}`,
`${documentId}_chunk_${i}`).  The structural fuel is the number itself,
which bounds the digit count; the zero-fuel branch is only reached for
n = 0, where it is correct. -/

def digitChar : Nat → Char
  | 0 => '0' | 1 => '1' | 2 => '2' | 3 => '3' | 4 => '4'
  | 5 => '5' | 6 => '6' | 7 => '7' | 8 => '8' | _ => '9'

def natDecimalGo : Nat → Nat → Str
  | 0, n => [digitChar (n % 10)]
  | fuel + 1, n =>
      if n < 10 then [digitChar n]
      else natDecimalGo fuel (n / 10) ++ [digitChar (n % 10)]

def natDecimal (n : Nat) : Str := natDecimalGo n n

example : natDecimal 0 = "0".data := by decide
example : natDecimal 2500 = "2500".data := by decide

/-! ## RAG ingestion (RAGIngestionService.processDocument)

`IngestEnv` models the external collaborators: S3 object fetch, the text
extractor, the Prisma status update, the embedder and the vector store.
The trace records every storage operation the service issues (S3 get,
database status update, vector-store write).  The JavaScript catch block
reads `document.metadata` although no binding named `document` is in scope
there, so the status-ERROR update call is never actually issued (the
ReferenceError is swallowed by the inner catch); accordingly no ERROR
update appears in the failure traces, and the function still returns
false rather than throwing. -/

inductive IngestOp
  | s3Get (key : Str)
  | dbUpdate (documentId : Str) (status : Str)
  | vectorPut (id : Str) (tenantId : Str) (documentId : Str)
      (chunkIndex : Nat) (text : Str) (source : Str)
  deriving DecidableEq

structure IngestEnv where
  fetch : Str → Except String (List Nat)
  extract : List Nat → Except String Str
  updateDoc : Str → Str → Except String Unit
  embed : List Str → Except String (List Nat)
  store : Str → Nat → Except String Unit

/-- `chunkText` (RAGIngestionService): fixed 1000-character windows, no
overlap; fuel is the text length, which every iteration decreases. -/
def chunkTextGo : Nat → Str → List Str
  | _, [] => []
  | 0, _ :: _ => []
  | fuel + 1, c :: cs => ((c :: cs).take 1000) :: chunkTextGo fuel ((c :: cs).drop 1000)

def chunkText1000 (text : Str) : List Str := chunkTextGo text.length text

/-- The per-chunk embedding-store loop of `processDocument`. -/
def storeLoop (env : IngestEnv) (tenantId documentId s3Key : Str)
    (embs : List Nat) : List Str → Nat → Except String Unit × List IngestOp
  | [], _ => (.ok (), [])
  | c :: cs, i =>
      let chunkId := documentId ++ "_chunk_".data ++ natDecimal i
      let op := IngestOp.vectorPut chunkId tenantId documentId i c s3Key
      match env.store chunkId (embs.getD i 0) with
      | .error e => (.error e, [op])
      | .ok _ =>
          let r := storeLoop env tenantId documentId s3Key embs cs (i + 1)
          (r.1, op :: r.2)

/-- `processDocument` (RAGIngestionService): step 0 is the Guard check; if
it fails the function returns false immediately with no storage operation.
Otherwise: fetch from S3, extract, set status EXTRACTED, chunk, embed,
store one tenant-tagged embedding per chunk, set status READY, return
true; any failure is caught and yields false. -/
def processDocument (env : IngestEnv) (s3Key tenantId documentId : Str) :
    Bool × List IngestOp :=
  if validateS3Key s3Key tenantId then
    match env.fetch s3Key with
    | .error _ => (false, [.s3Get s3Key])
    | .ok buf =>
      match env.extract buf with
      | .error _ => (false, [.s3Get s3Key])
      | .ok text =>
        match env.updateDoc documentId "EXTRACTED".data with
        | .error _ =>
            (false, [.s3Get s3Key, .dbUpdate documentId "EXTRACTED".data])
        | .ok _ =>
          let chunks := chunkText1000 text
          match env.embed chunks with
          | .error _ =>
              (false, [.s3Get s3Key, .dbUpdate documentId "EXTRACTED".data])
          | .ok embs =>
            let r := storeLoop env tenantId documentId s3Key embs chunks 0
            match r.1 with
            | .error _ =>
                (false, [.s3Get s3Key,
                  .dbUpdate documentId "EXTRACTED".data] ++ r.2)
            | .ok _ =>
              match env.updateDoc documentId "READY".data with
              | .error _ =>
                  (false, [.s3Get s3Key,
                    .dbUpdate documentId "EXTRACTED".data] ++ r.2 ++
                    [.dbUpdate documentId "READY".data])
              | .ok _ =>
                  (true, [.s3Get s3Key,
                    .dbUpdate documentId "EXTRACTED".data] ++ r.2 ++
                    [.dbUpdate documentId "READY".data])
  else (false, [])

/-! ## C4: guarded ingestion skip -/

/-- C4: whenever the Guard validation fails for (key, tenant id),
`processDocument` returns false immediately — it raises no exception (its
result type is a plain Boolean with a trace, every internal failure being
caught) and issues no storage fetch, database update or vector write. -/
theorem C4_guarded_ingestion_skip (env : IngestEnv)
    (s3Key tenantId documentId : Str)
    (h : validateS3Key s3Key tenantId = false) :
    processDocument env s3Key tenantId documentId = (false, []) := by
  simp [processDocument, h]

def C4env : IngestEnv :=
  ⟨fun _ => .ok [], fun _ => .ok [], fun _ _ => .ok (),
   fun _ => .ok [], fun _ _ => .ok ()⟩

/-- Witness for C4: a structurally invalid key is skipped with an empty
trace. -/
theorem C4_guarded_ingestion_skip_witness :
    processDocument C4env "invalid/key/format".data "t_1".data "d_1".data
      = (false, []) :=
  C4_guarded_ingestion_skip C4env "invalid/key/format".data "t_1".data
    "d_1".data (by decide)

/-! ## Document download service (DocumentDownloadService)

The document-metadata store is modelled as a list of records; Prisma's
`findFirst` with a compound where-clause is `List.find?` over that list.
The presigned URL is modelled by the storage key it is scoped to. -/

structure FolderRec where
  allowedRoles : Option (List Str)
  deriving DecidableEq

structure DocumentRec where
  id : Str
  tenantId : Str
  deletedAt : Option Nat
  allowedRoles : Option (List Str)
  folder : Option FolderRec
  storageKey : Option Str
  originalName : Str
  name : Str
  mimeType : Str
  deriving DecidableEq

/-- Folder tier of `checkUserAccess`: folder allowed-roles if present and
non-empty, else default allow. -/
def checkFolderAccess : Option FolderRec → List Str → Bool
  | some f, userRoles =>
      match f.allowedRoles with
      | some roles =>
          if roles.length > 0 then userRoles.any (fun r => roles.contains r)
          else true
      | none => true
  | none, _ => true

/-- `checkUserAccess` (DocumentDownloadService): document allowed-roles
first, then folder allowed-roles, then default allow. -/
def checkUserAccess (doc : DocumentRec) (userRoles : List Str) : Bool :=
  match doc.allowedRoles with
  | some roles =>
      if roles.length > 0 then userRoles.any (fun r => roles.contains r)
      else checkFolderAccess doc.folder userRoles
  | none => checkFolderAccess doc.folder userRoles

/-- `validateDocumentAccess` (DocumentDownloadService): one query filtered
by id AND tenantId AND not soft-deleted; null when nothing matches or the
role check fails. -/
def validateDocumentAccess (db : List DocumentRec)
    (documentId userId userTenantId : Str) (userRoles : List Str) :
    Option DocumentRec :=
  match db.find? (fun d => d.id == documentId && d.tenantId == userTenantId
      && d.deletedAt == none) with
  | none => none
  | some document =>
      if checkUserAccess document userRoles then some document else none

/-- The download service's own `validateS3Key` (prefix plus structure,
without sanitisation). -/
def downloadValidateS3Key (s3Key userTenantId : Str) : Bool :=
  if s3Key = [] || userTenantId = [] then false
  else if !startsWithStr ("tenants/".data ++ userTenantId ++ "/".data) s3Key
  then false
  else
    let parts := splitSlash s3Key
    if parts.length < 4 || parts.getD 2 [] ≠ "documents".data then false
    else true

def downloadValidateS3KeyOpt : Option Str → Str → Bool
  | none, _ => false
  | some k, t => downloadValidateS3Key k t

inductive DownloadError
  | notFoundOrForbidden
  | invalidStorageLocation
  | missingStorageKey
  deriving DecidableEq

structure DownloadResult where
  downloadUrl : Str
  documentId : Str
  fileName : Str
  mimeType : Str
  deriving DecidableEq

/-- `generatePresignedDownloadUrl` (DocumentDownloadService): resolve and
authorise the document (null collapses existence and authorisation into
one `notFoundOrForbidden` error), validate the stored key for the tenant,
require a storage key, then issue the credential scoped to that key. -/
def generatePresignedDownloadUrl (db : List DocumentRec)
    (documentId userId userTenantId : Str) (userRoles : List Str) :
    Except DownloadError DownloadResult :=
  match validateDocumentAccess db documentId userId userTenantId userRoles with
  | none => .error .notFoundOrForbidden
  | some document =>
      if !downloadValidateS3KeyOpt document.storageKey userTenantId then
        .error .invalidStorageLocation
      else
        match document.storageKey with
        | none => .error .missingStorageKey
        | some key =>
            .ok ⟨key, document.id,
              (if document.originalName = [] then document.name
               else document.originalName),
              document.mimeType⟩

/-! ## C5: existence non-leakage in download -/

/-- C5: a download-credential request for a document id that does not
exist and a request for a document owned by a different tenant than the
requesting tenant both fail with the very same `notFoundOrForbidden`
error, so the two cases are externally indistinguishable. -/
theorem C5_existence_non_leakage (db : List DocumentRec)
    (documentId userId userTenantId : Str) (userRoles : List Str) :
    ((∀ d ∈ db, d.id ≠ documentId) →
      generatePresignedDownloadUrl db documentId userId userTenantId userRoles
        = .error .notFoundOrForbidden) ∧
    ((∀ d ∈ db, d.id = documentId → d.tenantId ≠ userTenantId) →
      generatePresignedDownloadUrl db documentId userId userTenantId userRoles
        = .error .notFoundOrForbidden) := by
  constructor
  · intro h
    have hf : db.find? (fun d => d.id == documentId
        && d.tenantId == userTenantId && d.deletedAt == none) = none := by
      rw [List.find?_eq_none]
      intro d hd hp
      rw [Bool.and_eq_true, Bool.and_eq_true] at hp
      exact h d hd (by simpa using hp.1.1)
    simp [generatePresignedDownloadUrl, validateDocumentAccess, hf]
  · intro h
    have hf : db.find? (fun d => d.id == documentId
        && d.tenantId == userTenantId && d.deletedAt == none) = none := by
      rw [List.find?_eq_none]
      intro d hd hp
      rw [Bool.and_eq_true, Bool.and_eq_true] at hp
      exact h d hd (by simpa using hp.1.1) (by simpa using hp.1.2)
    simp [generatePresignedDownloadUrl, validateDocumentAccess, hf]

def C5doc : DocumentRec :=
  ⟨"doc_1".data, "t_1".data, none, none, none,
   some "tenants/t_1/documents/raw/doc_1/f.pdf".data,
   "f.pdf".data, "f.pdf".data, "application/pdf".data⟩

/-- Witness for C5: a document owned by t_1 requested with tenant t_2
fails with `notFoundOrForbidden`. -/
theorem C5_existence_non_leakage_witness :
    generatePresignedDownloadUrl [C5doc] "doc_1".data "u_1".data "t_2".data
      ["MEMBER".data] = .error .notFoundOrForbidden :=
  (C5_existence_non_leakage [C5doc] "doc_1".data "u_1".data "t_2".data
    ["MEMBER".data]).2 (by decide)

/-! ## Upload service (DocumentUploadService) and file.js

`Date.now()` and `crypto.randomBytes(8).toString('hex')` are
nondeterministic; they are passed in explicitly as a timestamp and a
16-character hex string. -/

/-- JavaScript `lastIndexOf('.')`, as an optional index. -/
def lastDotIndex (s : Str) : Option Nat :=
  ((List.range s.length).filter (fun i => s.getD i ' ' = '.')).getLast?

/-- Character class `[a-zA-Z0-9 _-]` of the upload service's base-name
sanitisation. -/
def isAllowedBaseChar (c : Char) : Bool :=
  (97 ≤ c.toNat && c.toNat ≤ 122) || (65 ≤ c.toNat && c.toNat ≤ 90) ||
  (48 ≤ c.toNat && c.toNat ≤ 57) || c.toNat == 32 || c.toNat == 95 ||
  c.toNat == 45

/-- Character class `[a-zA-Z0-9.]` of the extension sanitisation. -/
def isAllowedExtChar (c : Char) : Bool :=
  (97 ≤ c.toNat && c.toNat ≤ 122) || (65 ≤ c.toNat && c.toNat ≤ 90) ||
  (48 ≤ c.toNat && c.toNat ≤ 57) || c.toNat == 46

/-- `sanitizeFilename` (DocumentUploadService): strip traversal sequences
and null bytes, split at the last dot (only when its index is positive),
replace disallowed base-name characters by underscores and drop disallowed
extension characters. -/
def uploadSanitizeFilename (filename : Str) : Option Str :=
  if filename = [] then none
  else
    let f1 := removeSeq '.' '.' '/' filename
    let f2 := removeSeq '.' '.' '\\' f1
    let f3 := removeSeq '/' '.' '.' f2
    let f4 := removeSeq '\\' '.' '.' f3
    let f5 := f4.filter (fun c => c != Char.ofNat 0)
    let split :=
      match lastDotIndex f5 with
      | some i => if i > 0 then (f5.take i, f5.drop i) else (f5, ([] : Str))
      | none => (f5, ([] : Str))
    let baseName := split.1.map (fun c => if isAllowedBaseChar c then c else '_')
    let extension := split.2.filter isAllowedExtChar
    some (baseName ++ extension)

/-- Node `path`: the last path component, ignoring trailing slashes. -/
def pathLastComponent (p : Str) : Str :=
  ((p.reverse.dropWhile (fun c => c == '/')).takeWhile (fun c => c != '/')).reverse

/-- Node `path.extname`, following its scanning algorithm: within the last
component, the extension starts at the last dot; it is empty when there is
no dot, when the dot is the component's first character, or when the
component is exactly `..`. -/
def pathExtname (p : Str) : Str :=
  let base := pathLastComponent p
  match lastDotIndex base with
  | none => []
  | some i =>
      if i = 0 then []
      else if base = "..".data then []
      else base.drop i

/-- Node `path.basename(p, ext)`: the last component, minus `ext` when it
is a suffix and not the whole component. -/
def pathBasename (p ext : Str) : Str :=
  let base := pathLastComponent p
  if ext ≠ [] ∧ base ≠ ext ∧ ext.isSuffixOf base then
    base.take (base.length - ext.length)
  else base

/-- `generateUniqueFilename` (file.js):
`{name}-{timestamp}-{random hex}{ext}`. -/
def generateUniqueFilename (ts : Nat) (rand : Str) (originalName : Str) : Str :=
  let ext := pathExtname originalName
  let name := pathBasename originalName ext
  name ++ "-".data ++ natDecimal ts ++ "-".data ++ rand ++ ext

example : generateUniqueFilename 1700000000000 "abcdef0123456789".data
    "report.pdf".data = "report-1700000000000-abcdef0123456789.pdf".data := by
  decide

inductive UploadKeyError
  | invalidTenantIdFormat
  | invalidFilename
  deriving DecidableEq

/-- `generateSecureObjectKey` (DocumentUploadService): regex-validate the
tenant id (`^[a-zA-Z0-9_-]+$`), sanitise the filename (throwing when the
result is falsy), derive the unique filename, and assemble
`tenants/{tenantId}/documents/raw/{documentId || 'temp'}/{uniqueFilename}`.
The construction is not followed by any Guard call. -/
def generateSecureObjectKey (ts : Nat) (rand : Str)
    (tenantId originalFilename : Str) (documentId : Option Str) :
    Except UploadKeyError Str :=
  if tenantId = [] ∨ ¬(tenantId.all isAllowedTenantChar = true) then
    .error .invalidTenantIdFormat
  else
    match uploadSanitizeFilename originalFilename with
    | none => .error .invalidFilename
    | some sanitizedFilename =>
        if sanitizedFilename = [] then .error .invalidFilename
        else
          let uniqueFilename := generateUniqueFilename ts rand sanitizedFilename
          let docSeg :=
            match documentId with
            | some d => if d = [] then "temp".data else d
            | none => "temp".data
          .ok ("tenants/".data ++ tenantId ++ "/documents/raw/".data ++
            docSeg ++ "/".data ++ uniqueFilename)

example : generateSecureObjectKey 1700000000000 "abcdef0123456789".data
    "t_1".data "report.pdf".data none
    = .ok "tenants/t_1/documents/raw/temp/report-1700000000000-abcdef0123456789.pdf".data :=
  rfl

/-! ## C6: upload key generation fails closed -/

theorem uploadKey_valid (tenantId seg uf : Str)
    (hTvalid : isValidTenantIdB tenantId = true) :
    validateS3Key ("tenants/".data ++ tenantId ++ "/documents/raw/".data ++
      seg ++ "/".data ++ uf) tenantId = true := by
  have hkv := canonical_key_valid tenantId
    ("raw/".data ++ seg ++ "/".data ++ uf) hTvalid
  have heq : "tenants/".data ++ tenantId ++ "/documents/".data ++
        ("raw/".data ++ seg ++ "/".data ++ uf)
      = "tenants/".data ++ tenantId ++ "/documents/raw/".data ++ seg ++
        "/".data ++ uf := by
    simp [List.append_assoc]
  rwa [heq] at hkv

/-- C6: the upload service's key generation fails closed — every key it
successfully returns validates true for the tenant id under the Guard's
combined validation, so a non-validating key is never returned, and the
conditional "fail with InvalidKeyGenerated whenever the built key does not
validate" holds vacuously.  (The code performs no post-build Guard call;
the guarantee comes from the input validation and the construction.) -/
theorem C6_upload_key_fails_closed (ts : Nat) (rand : Str)
    (tenantId originalFilename : Str) (documentId : Option Str) (key : Str)
    (h : generateSecureObjectKey ts rand tenantId originalFilename documentId
      = .ok key) :
    validateS3Key key tenantId = true := by
  simp only [generateSecureObjectKey] at h
  by_cases hT : tenantId = [] ∨ ¬(tenantId.all isAllowedTenantChar = true)
  · rw [if_pos hT] at h; cases h
  rw [if_neg hT] at h
  push_neg at hT
  obtain ⟨hTne, hTall⟩ := hT
  have hTvalid : isValidTenantIdB tenantId = true := by
    rw [isValidTenantIdB, Bool.and_eq_true]
    refine ⟨?_, hTall⟩
    simp [List.isEmpty_iff, hTne]
  cases hsf : uploadSanitizeFilename originalFilename with
  | none => rw [hsf] at h; cases h
  | some sf =>
      rw [hsf] at h
      by_cases hse : sf = []
      · simp only [if_pos hse] at h
        cases h
      simp only [if_neg hse] at h
      injection h with hkey
      rw [← hkey]
      exact uploadKey_valid tenantId _ _ hTvalid

/-- Witness for C6: a concrete generated key validates for its tenant. -/
theorem C6_upload_key_fails_closed_witness :
    validateS3Key
      "tenants/t_1/documents/raw/temp/report-1-abcdef0123456789.pdf".data
      "t_1".data = true :=
  C6_upload_key_fails_closed 1 "abcdef0123456789".data "t_1".data
    "report.pdf".data none
    "tenants/t_1/documents/raw/temp/report-1-abcdef0123456789.pdf".data rfl

/-! ## C10: temp segment and per-call key uniqueness -/

def parseDecimal (s : Str) : Nat :=
  s.foldl (fun a c => a * 10 + (c.toNat - 48)) 0

theorem digitChar_toNat (d : Nat) (h : d < 10) :
    (digitChar d).toNat = 48 + d := by
  interval_cases d <;> decide

theorem natDecimalGo_parse (fuel : Nat) :
    ∀ n, n ≤ fuel → parseDecimal (natDecimalGo fuel n) = n := by
  induction fuel with
  | zero =>
      intro n hn
      interval_cases n
      decide
  | succ fuel ih =>
      intro n hn
      rw [natDecimalGo]
      by_cases h10 : n < 10
      · rw [if_pos h10]
        simp [parseDecimal, List.foldl, digitChar_toNat n h10]
      · rw [if_neg h10]
        have hd : n / 10 ≤ fuel := by
          have hlt : n / 10 < n := Nat.div_lt_self (by omega) (by omega)
          omega
        have hih := ih (n / 10) hd
        simp only [parseDecimal, List.foldl_append] at hih ⊢
        rw [hih]
        have hm : (digitChar (n % 10)).toNat = 48 + n % 10 :=
          digitChar_toNat _ (Nat.mod_lt _ (by omega))
        simp only [List.foldl_cons, List.foldl_nil, hm]
        omega

theorem natDecimal_inj (m n : Nat) (h : natDecimal m = natDecimal n) :
    m = n := by
  have hm := natDecimalGo_parse m m le_rfl
  have hn := natDecimalGo_parse n n le_rfl
  unfold natDecimal at h
  rw [h, hn] at hm
  exact hm.symm

theorem generateUniqueFilename_inj (ts1 ts2 : Nat) (r1 r2 sf : Str)
    (hlen : r1.length = r2.length)
    (h : generateUniqueFilename ts1 r1 sf = generateUniqueFilename ts2 r2 sf) :
    ts1 = ts2 ∧ r1 = r2 := by
  simp only [generateUniqueFilename] at h
  simp only [show ("-".data : Str) = ['-'] from rfl, List.append_assoc,
    List.singleton_append, List.cons_append, List.nil_append] at h
  have h2 := List.append_cancel_left h
  injection h2 with _ h3
  have hl : (natDecimal ts1).length = (natDecimal ts2).length := by
    have hlen3 := congrArg List.length h3
    simp only [List.length_append, List.length_cons] at hlen3
    omega
  obtain ⟨hnd, htail⟩ := List.append_inj h3 hl
  injection htail with _ htail2
  obtain ⟨hr, _⟩ := List.append_inj htail2 hlen
  exact ⟨natDecimal_inj _ _ hnd, hr⟩

/-- C10: with documentId omitted (null), the upload service's generated key
has the literal segment `temp` in the documentId position — the key is
exactly `tenants/{tenantId}/documents/raw/temp/{uniqueFilename}` — and
because the unique filename embeds the call's timestamp and the 16 hex
characters of its 8 random bytes, two calls with identical inputs whose
(timestamp, randomness) pairs differ produce distinct keys. -/
theorem C10_temp_segment_and_distinct_keys :
    (∀ (ts : Nat) (rand T fn sf : Str), isValidTenantIdB T = true →
      uploadSanitizeFilename fn = some sf → sf ≠ [] →
      generateSecureObjectKey ts rand T fn none
        = .ok ("tenants/".data ++ T ++ "/documents/raw/temp/".data ++
            generateUniqueFilename ts rand sf)) ∧
    (∀ (ts1 ts2 : Nat) (r1 r2 T fn k1 k2 : Str),
      generateSecureObjectKey ts1 r1 T fn none = .ok k1 →
      generateSecureObjectKey ts2 r2 T fn none = .ok k2 →
      r1.length = r2.length → (ts1, r1) ≠ (ts2, r2) → k1 ≠ k2) := by
  constructor
  · intro ts rand T fn sf hT hsf hse
    have hcond : ¬(T = [] ∨ ¬(T.all isAllowedTenantChar = true)) := by
      rw [isValidTenantIdB, Bool.and_eq_true] at hT
      push_neg
      refine ⟨?_, hT.2⟩
      simpa [List.isEmpty_iff] using hT.1
    simp only [generateSecureObjectKey, if_neg hcond, hsf, if_neg hse]
    congr 1
    simp [List.append_assoc]
  · intro ts1 ts2 r1 r2 T fn k1 k2 h1 h2 hlen hne heq
    simp only [generateSecureObjectKey] at h1 h2
    by_cases hT : T = [] ∨ ¬(T.all isAllowedTenantChar = true)
    · rw [if_pos hT] at h1; cases h1
    rw [if_neg hT] at h1
    rw [if_neg hT] at h2
    cases hsf : uploadSanitizeFilename fn with
    | none => rw [hsf] at h1; cases h1
    | some sf =>
        rw [hsf] at h1
        rw [hsf] at h2
        by_cases hse : sf = []
        · simp only [if_pos hse] at h1; cases h1
        simp only [if_neg hse] at h1
        simp only [if_neg hse] at h2
        injection h1 with hk1
        injection h2 with hk2
        rw [← hk1, ← hk2] at heq
        have hre := heq
        simp only [List.append_assoc, List.cons_append, List.nil_append,
          List.cons.injEq, true_and, List.append_cancel_left_eq] at hre
        obtain ⟨hts, hr⟩ := generateUniqueFilename_inj ts1 ts2 r1 r2 sf hlen hre
        exact hne (by rw [hts, hr])

/-- Witness for C10: two concrete calls with the same inputs but different
timestamp and randomness yield distinct keys. -/
theorem C10_temp_segment_and_distinct_keys_witness :
    ("tenants/t_1/documents/raw/temp/report-1-aaaaaaaaaaaaaaaa.pdf".data : Str)
      ≠ "tenants/t_1/documents/raw/temp/report-2-bbbbbbbbbbbbbbbb.pdf".data :=
  C10_temp_segment_and_distinct_keys.2 1 2 "aaaaaaaaaaaaaaaa".data
    "bbbbbbbbbbbbbbbb".data "t_1".data "report.pdf".data
    "tenants/t_1/documents/raw/temp/report-1-aaaaaaaaaaaaaaaa.pdf".data
    "tenants/t_1/documents/raw/temp/report-2-bbbbbbbbbbbbbbbb.pdf".data
    rfl rfl rfl (by decide)
